import Mathlib

/-!
Verification of the DB repository: an in-memory integer key/value store
(`Database`), a pickle-snapshot persistence layer (`FileDatabase`), and a
reader/writer gate in two variants (semaphore+lock in `sync_Database.py`,
event+mutex in `winapi.py`).  The Python classes are embedded shallowly:
the mapping is an association list with unique keys, the snapshot file is
a three-valued `File` (absent, unreadable, or a stored mapping), and each
operation additionally returns the list of persistence / gate events it
performed, in order, so that call-discipline properties can be stated.
-/

/-- The in-memory mapping `self.DB`: association list of key/value pairs
(Python `dict` with integer keys and values; keys unique). -/
abbrev Dict := List (Int × Int)

/-- `db[k]` lookup: the value stored at `k`, if any. -/
def dictGet : Dict → Int → Option Int
  | [], _ => none
  | (a, b) :: t, k => if a = k then some b else dictGet t k

/-- `k in db`: key membership test (lookup succeeds). -/
def dictHas (db : Dict) (k : Int) : Bool :=
  (dictGet db k).isSome

/-- `db[k] = v`: overwrite the entry in place when the key is present,
append otherwise (Python dict assignment, insertion order preserved). -/
def dictAssign : Dict → Int → Int → Dict
  | [], k, v => [(k, v)]
  | (a, b) :: t, k, v =>
      if a = k then (k, v) :: t else (a, b) :: dictAssign t k v

/-- `del db[k]`: remove the entry for `k` (with unique keys, the single
entry Python removes). -/
def dictRemove : Dict → Int → Dict
  | [], _ => []
  | (a, b) :: t, k => if a = k then t else (a, b) :: dictRemove t k

/-- Result of `Database.get_value`: either the stored value or the
sentinel string "doesn't exist" returned on a missing key. -/
inductive GetResult where
  | found (v : Int)
  | notFound
deriving DecidableEq, Repr

namespace Database

/-- `Database.set_value` (Database.py): `self.DB[key] = val; return True`.
The `except` branch (return `False`) is unreachable for integer keys on a
dict, so the embedded assignment always succeeds. -/
def set_value (db : Dict) (k v : Int) : Bool × Dict :=
  (true, dictAssign db k v)

/-- `Database.get_value` (Database.py): `return self.DB[key]`, or the
"doesn't exist" sentinel on `KeyError`. -/
def get_value (db : Dict) (k : Int) : GetResult :=
  match dictGet db k with
  | some v => .found v
  | none => .notFound

/-- `Database.del_value` (Database.py): `del self.DB[key]; return True`,
or `return False` on `KeyError` (key absent). -/
def del_value (db : Dict) (k : Int) : Bool × Dict :=
  if dictHas db k then (true, dictRemove db k) else (false, db)

end Database

/-- The durable target `database.pickle`: it may not exist, exist but fail
to open/deserialize, or hold a pickled mapping. -/
inductive File where
  | absent
  | corrupt
  | snapshot (d : Dict)
deriving DecidableEq, Repr

/-- State of a `FileDatabase`: the in-memory mapping `self.DB` and the
durable target at `self.file_path`. -/
structure FileState where
  DB : Dict
  file : File
deriving DecidableEq, Repr

/-- Persistence / store events recorded by the `FileDatabase` operations,
in execution order. -/
inductive Ev where
  | reload
  | save
  | storeGet
  | storeSet
  | storeDel
deriving DecidableEq, Repr

namespace FileDatabase

/-- `FileDatabase.load_from_file`: read and unpickle into `self.DB`;
on any failure (missing or unreadable file) log and leave `self.DB`
as it was — the caller is not told the load failed. -/
def load_from_file (st : FileState) : FileState :=
  match st.file with
  | .snapshot d => { st with DB := d }
  | _ => st

/-- `FileDatabase.save_to_file`: pickle `self.DB` over the target. -/
def save_to_file (st : FileState) : FileState :=
  { st with file := .snapshot st.DB }

/-- `FileDatabase.__init__` (file_Database.py): `super().__init__(db)`,
then `if os.path.exists(self.file_path): self.load_from_file()`. -/
def init_pickle (db : Dict) (f : File) : FileState :=
  match f with
  | .absent => ⟨db, .absent⟩
  | _ => load_from_file ⟨db, f⟩

/-- `FileDatabase.__init__` (winapi.py): `CreateFile(..., CREATE_NEW, ...)`
writes an empty pickled dict when the target is absent; then
`self.load_from_file()` and `super().__init__(self.DB)`.  The `db`
argument is never read.  When the existing target cannot be unpickled,
`self.DB` is never bound and the constructor raises (`none`). -/
def init_winapi (db : Dict) (f : File) : Option FileState :=
  let f1 : File := match f with
    | .absent => .snapshot []
    | _ => f
  match f1 with
  | .snapshot d => some ⟨d, f1⟩
  | _ => none

/-- `FileDatabase.set_value`: `self.load_from_file()`, then
`success = super().set_value(key, val)`, then `if success:
self.save_to_file()`, returning `success`. -/
def set_value (st : FileState) (k v : Int) : Bool × FileState × List Ev :=
  let st1 := load_from_file st
  let r := Database.set_value st1.DB k v
  let st2 : FileState := ⟨r.2, st1.file⟩
  if r.1 then (r.1, save_to_file st2, [.reload, .storeSet, .save])
  else (r.1, st2, [.reload, .storeSet])

/-- `FileDatabase.get_value`: `self.load_from_file()`, then
`return super().get_value(key)`. -/
def get_value (st : FileState) (k : Int) : GetResult × FileState × List Ev :=
  let st1 := load_from_file st
  (Database.get_value st1.DB k, st1, [.reload, .storeGet])

/-- `FileDatabase.del_value`: `self.load_from_file()`, then
`success = super().del_value(key)`, then `if success:
self.save_to_file()`, returning `success`. -/
def del_value (st : FileState) (k : Int) : Bool × FileState × List Ev :=
  let st1 := load_from_file st
  let r := Database.del_value st1.DB k
  let st2 : FileState := ⟨r.2, st1.file⟩
  if r.1 then (r.1, save_to_file st2, [.reload, .storeDel, .save])
  else (r.1, st2, [.reload, .storeDel])

end FileDatabase

/-- Gate events recorded by the synchronized operations, in order. -/
inductive GEv where
  | acqRead
  | relRead
  | acqWrite
  | relWrite
deriving DecidableEq, Repr

namespace SynchronizedDatabase

/-- The wrapped inner call of a synchronized write operation: either the
`FileDatabase` operation runs to completion, or (`exc = true`) an
exception escapes it — the fault model for the release-on-every-path
contract. -/
def writeBody (inner : FileState → Int → Bool × FileState × List Ev)
    (st : FileState) (k : Int) (exc : Bool) : Except Unit (Bool × FileState) :=
  if exc then .error ()
  else
    let r := inner st k
    .ok (r.1, r.2.1)

/-- `SynchronizedDatabase.set_value` (sync_Database.py):
`self.acquire_write_lock()`, then `try: return super().set_value(...)`
`finally: self.release_write_lock()` — the release runs on the normal
and on the exceptional exit alike. -/
def set_value (st : FileState) (k v : Int) (exc : Bool) :
    Except Unit Bool × FileState × List GEv :=
  match writeBody (fun s key => FileDatabase.set_value s key v) st k exc with
  | .ok (b, st') => (.ok b, st', [.acqWrite, .relWrite])
  | .error e => (.error e, st, [.acqWrite, .relWrite])

/-- `SynchronizedDatabase.delete_value` (sync_Database.py): acquire the
write lock, `try: return super().del_value(key)` `finally:` release. -/
def delete_value (st : FileState) (k : Int) (exc : Bool) :
    Except Unit Bool × FileState × List GEv :=
  match writeBody FileDatabase.del_value st k exc with
  | .ok (b, st') => (.ok b, st', [.acqWrite, .relWrite])
  | .error e => (.error e, st, [.acqWrite, .relWrite])

/-- The wrapped inner call of `get_value`, under the same fault model. -/
def readBody (st : FileState) (k : Int) (exc : Bool) :
    Except Unit (GetResult × FileState) :=
  if exc then .error ()
  else
    let r := FileDatabase.get_value st k
    .ok (r.1, r.2.1)

/-- `SynchronizedDatabase.get_value` (sync_Database.py):
`self.acquire_read_lock()`, then `try: return super().get_value(key)`
`finally: self.release_read_semaphore()`. -/
def get_value (st : FileState) (k : Int) (exc : Bool) :
    Except Unit GetResult × FileState × List GEv :=
  match readBody st k exc with
  | .ok (g, st') => (.ok g, st', [.acqRead, .relRead])
  | .error e => (.error e, st, [.acqRead, .relRead])

end SynchronizedDatabase

/-! ### Lemmas about the mapping primitives -/

lemma dictGet_assign_self (db : Dict) (k v : Int) :
    dictGet (dictAssign db k v) k = some v := by
  induction db with
  | nil => simp [dictAssign, dictGet]
  | cons p t ih =>
      obtain ⟨a, b⟩ := p
      by_cases h : a = k
      · simp [dictAssign, dictGet, h]
      · simp [dictAssign, dictGet, h, ih]

lemma dictGet_assign_other (db : Dict) (k v k' : Int) (h : k' ≠ k) :
    dictGet (dictAssign db k v) k' = dictGet db k' := by
  induction db with
  | nil => simp [dictAssign, dictGet, Ne.symm h]
  | cons p t ih =>
      obtain ⟨a, b⟩ := p
      by_cases ha : a = k
      · subst ha
        simp [dictAssign, dictGet, Ne.symm h]
      · simp [dictAssign, dictGet, ha, ih]

lemma dictGet_eq_none_of_not_mem (db : Dict) (k : Int)
    (h : k ∉ db.map Prod.fst) : dictGet db k = none := by
  induction db with
  | nil => rfl
  | cons p t ih =>
      obtain ⟨a, b⟩ := p
      simp only [List.map_cons, List.mem_cons] at h
      push_neg at h
      have hak : ¬a = k := fun hak => h.1 hak.symm
      simp [dictGet, hak, ih h.2]

lemma dictGet_remove_self (db : Dict) (k : Int)
    (h : (db.map Prod.fst).Nodup) : dictGet (dictRemove db k) k = none := by
  induction db with
  | nil => rfl
  | cons p t ih =>
      obtain ⟨a, b⟩ := p
      simp only [List.map_cons, List.nodup_cons] at h
      by_cases hak : a = k
      · subst hak
        simpa [dictRemove] using dictGet_eq_none_of_not_mem t a h.1
      · simp [dictRemove, dictGet, hak, ih h.2]

lemma load_from_file_file (st : FileState) :
    (FileDatabase.load_from_file st).file = st.file := by
  cases st with
  | mk d f => cases f <;> rfl

/-! ### C4: round trip on one store -/

/-- C4: starting from initial mapping `{1:10, 2:20}` (absent snapshot),
`set(3, 30)` succeeds, a subsequent `get(3)` returns `30`, and a
subsequent `get(99)` returns the NotFound result. -/
theorem C4_round_trip :
    (FileDatabase.set_value (FileDatabase.init_pickle [(1, 10), (2, 20)] .absent) 3 30).1 = true ∧
    (FileDatabase.get_value
      (FileDatabase.set_value (FileDatabase.init_pickle [(1, 10), (2, 20)] .absent) 3 30).2.1
      3).1 = .found 30 ∧
    (FileDatabase.get_value
      (FileDatabase.get_value
        (FileDatabase.set_value (FileDatabase.init_pickle [(1, 10), (2, 20)] .absent) 3 30).2.1
        3).2.1
      99).1 = .notFound := by
  decide

/-! ### C5: silent-degrade reload -/

/-- C5: when the snapshot target is absent or unreadable, `load_from_file`
returns normally with the whole store state (in particular the prior
in-memory mapping) exactly as it was, and the subsequent store operation
proceeds on that unchanged mapping. -/
theorem C5_silent_degrade (st : FileState) (k v : Int)
    (h : st.file = .absent ∨ st.file = .corrupt) :
    FileDatabase.load_from_file st = st ∧
    (FileDatabase.get_value st k).1 = Database.get_value st.DB k ∧
    (FileDatabase.get_value st k).2.1 = st ∧
    (FileDatabase.set_value st k v).2.1.DB = dictAssign st.DB k v := by
  have hload : FileDatabase.load_from_file st = st := by
    cases st with
    | mk d f => rcases h with h | h <;> (cases f <;> simp_all [FileDatabase.load_from_file])
  refine ⟨hload, ?_, ?_, ?_⟩
  · simp [FileDatabase.get_value, hload]
  · simp [FileDatabase.get_value, hload]
  · simp [FileDatabase.set_value, hload, Database.set_value, FileDatabase.save_to_file]

theorem C5_silent_degrade_witness :
    FileDatabase.load_from_file ⟨[(1, 10)], .corrupt⟩ = ⟨[(1, 10)], .corrupt⟩ ∧
    (FileDatabase.get_value ⟨[(1, 10)], .corrupt⟩ 1).1 = Database.get_value [(1, 10)] 1 ∧
    (FileDatabase.get_value ⟨[(1, 10)], .corrupt⟩ 1).2.1 = ⟨[(1, 10)], .corrupt⟩ ∧
    (FileDatabase.set_value ⟨[(1, 10)], .corrupt⟩ 1 5).2.1.DB = dictAssign [(1, 10)] 1 5 :=
  C5_silent_degrade ⟨[(1, 10)], .corrupt⟩ 1 5 (Or.inr rfl)

/-! ### C6: delete result semantics -/

/-- C6: for a mapping (unique keys), `del_value` returns true iff the key
was present, removes the key when present, treats an absent key as a
normal false result, and a second delete of the same key returns false. -/
theorem C6_delete_result (db : Dict) (k : Int)
    (h : (db.map Prod.fst).Nodup) :
    ((Database.del_value db k).1 = true ↔ dictHas db k = true) ∧
    dictGet (Database.del_value db k).2 k = none ∧
    (Database.del_value (Database.del_value db k).2 k).1 = false := by
  by_cases hk : dictHas db k = true
  · have hk' : (dictGet db k).isSome = true := hk
    have hrem : dictGet (dictRemove db k) k = none := dictGet_remove_self db k h
    refine ⟨by simp [Database.del_value, dictHas, hk'], ?_, ?_⟩
    · simp [Database.del_value, dictHas, hk', hrem]
    · simp [Database.del_value, dictHas, hk', hrem]
  · have hget : dictGet db k = none := by
      cases hg : dictGet db k with
      | none => rfl
      | some v => exact absurd (by simp [dictHas, hg]) hk
    have hk' : (dictGet db k).isSome = false := by simp [hget]
    refine ⟨by simp [Database.del_value, dictHas, hk'], ?_, ?_⟩
    · simp [Database.del_value, dictHas, hk', hget]
    · simp [Database.del_value, dictHas, hk']

theorem C6_delete_result_witness :
    (((Database.del_value [(42, 1), (7, 2)] 42).1 = true ↔
      dictHas [(42, 1), (7, 2)] 42 = true) ∧
    dictGet (Database.del_value [(42, 1), (7, 2)] 42).2 42 = none ∧
    (Database.del_value (Database.del_value [(42, 1), (7, 2)] 42).2 42).1 = false) :=
  C6_delete_result [(42, 1), (7, 2)] 42 (by decide)

/-! ### C7: atomicity of a failed delete -/

/-- C7: deleting key 42 when it is absent from the (reloaded) mapping
returns false, performs no save, and leaves the durable snapshot exactly
as it was before the call. -/
theorem C7_failed_delete (st : FileState)
    (h : dictHas (FileDatabase.load_from_file st).DB 42 = false) :
    (FileDatabase.del_value st 42).1 = false ∧
    (FileDatabase.del_value st 42).2.1.file = st.file ∧
    Ev.save ∉ (FileDatabase.del_value st 42).2.2 := by
  have hfile := load_from_file_file st
  refine ⟨?_, ?_, ?_⟩ <;>
    simp [FileDatabase.del_value, Database.del_value, h, hfile]

theorem C7_failed_delete_witness :
    (FileDatabase.del_value ⟨[(1, 10)], .snapshot []⟩ 42).1 = false ∧
    (FileDatabase.del_value ⟨[(1, 10)], .snapshot []⟩ 42).2.1.file = (.snapshot [] : File) ∧
    Ev.save ∉ (FileDatabase.del_value ⟨[(1, 10)], .snapshot []⟩ 42).2.2 :=
  C7_failed_delete ⟨[(1, 10)], .snapshot []⟩ (by decide)

/-! ### C10: frame property of set -/

/-- C10: a successful `set_value` stores the assigned value at the given
key and leaves the binding of every other key exactly as before. -/
theorem C10_set_frame (db : Dict) (k v k' : Int) (h : k' ≠ k) :
    (Database.set_value db k v).1 = true ∧
    dictGet (Database.set_value db k v).2 k = some v ∧
    dictGet (Database.set_value db k v).2 k' = dictGet db k' := by
  exact ⟨rfl, dictGet_assign_self db k v, dictGet_assign_other db k v k' h⟩

theorem C10_set_frame_witness :
    (Database.set_value [(1, 10), (2, 20)] 2 5).1 = true ∧
    dictGet (Database.set_value [(1, 10), (2, 20)] 2 5).2 2 = some 5 ∧
    dictGet (Database.set_value [(1, 10), (2, 20)] 2 5).2 1 = dictGet [(1, 10), (2, 20)] 1 :=
  C10_set_frame [(1, 10), (2, 20)] 2 5 1 (by decide)

/-! ### C9: absent-target initialization -/

/-- C9 counterexample: in the pickle variant, constructing with initial
mapping `{1:10}` and an absent target leaves `{1:10}` in force (a `get(1)`
returns 10), while constructing with a present empty snapshot yields the
empty mapping (the same `get(1)` returns NotFound) — the two observable
states differ. -/
theorem C9_counterexample :
    (FileDatabase.get_value (FileDatabase.init_pickle [(1, 10)] .absent) 1).1 ≠
    (FileDatabase.get_value (FileDatabase.init_pickle [(1, 10)] (.snapshot [])) 1).1 := by
  decide

/-- C9 (amended): in the winapi variant an absent target is initialized
to an empty snapshot, so construction with an absent target yields
exactly the state of construction with a present empty snapshot; in the
pickle variant an absent target performs no load, leaving the
constructor's initial mapping in memory and no snapshot on disk, so the
claimed equivalence holds only when the initial mapping is empty. -/
theorem C9_absent_init :
    (∀ db : Dict, FileDatabase.init_winapi db .absent =
      FileDatabase.init_winapi db (.snapshot [])) ∧
    (∀ db : Dict, FileDatabase.init_pickle db .absent = ⟨db, .absent⟩) ∧
    (∀ k : Int, (FileDatabase.get_value (FileDatabase.init_pickle [] .absent) k).1 =
      (FileDatabase.get_value (FileDatabase.init_pickle [] (.snapshot [])) k).1) := by
  refine ⟨fun db => rfl, fun db => rfl, fun k => rfl⟩

/-! ### C2: persistence discipline -/

/-- C2: every public operation reloads the snapshot as its first step and
consults/mutates only the reloaded mapping; a save is performed exactly
when the operation is a mutating one (set or delete) whose inner store
operation returned true. -/
theorem C2_persistence_discipline (st : FileState) (k v : Int) :
    ((FileDatabase.get_value st k).2.2.head? = some .reload ∧
      Ev.save ∉ (FileDatabase.get_value st k).2.2 ∧
      (FileDatabase.get_value st k).1 =
        Database.get_value (FileDatabase.load_from_file st).DB k) ∧
    ((FileDatabase.set_value st k v).2.2.head? = some .reload ∧
      (Ev.save ∈ (FileDatabase.set_value st k v).2.2 ↔
        (FileDatabase.set_value st k v).1 = true) ∧
      (FileDatabase.set_value st k v).2.1.DB =
        (Database.set_value (FileDatabase.load_from_file st).DB k v).2) ∧
    ((FileDatabase.del_value st k).2.2.head? = some .reload ∧
      (Ev.save ∈ (FileDatabase.del_value st k).2.2 ↔
        (FileDatabase.del_value st k).1 = true) ∧
      (FileDatabase.del_value st k).2.1.DB =
        (Database.del_value (FileDatabase.load_from_file st).DB k).2) := by
  have hget1 : (FileDatabase.get_value st k).2.2 = [Ev.reload, Ev.storeGet] := rfl
  refine ⟨⟨rfl, by rw [hget1]; decide, rfl⟩,
    ⟨rfl, by simp [FileDatabase.set_value, Database.set_value], ?_⟩, ?_⟩
  · simp [FileDatabase.set_value, Database.set_value, FileDatabase.save_to_file]
  · by_cases hk : dictHas (FileDatabase.load_from_file st).DB k = true
    · have hk' : (dictGet (FileDatabase.load_from_file st).DB k).isSome = true := hk
      refine ⟨?_, ?_, ?_⟩ <;>
        simp [FileDatabase.del_value, Database.del_value, dictHas, hk',
          FileDatabase.save_to_file]
    · have hk' : (dictGet (FileDatabase.load_from_file st).DB k).isSome = false := by
        simpa [dictHas] using hk
      refine ⟨?_, ?_, ?_⟩ <;>
        simp [FileDatabase.del_value, Database.del_value, dictHas, hk']

/-! ### C3: guaranteed gate release -/

/-- C3: each synchronized operation acquires its gate and releases it on
every exit path — in particular when the wrapped operation raises
(`exc = true`), the recorded gate trace still ends with the matching
release, and the release is the only event after the acquire. -/
theorem C3_guaranteed_release (st : FileState) (k v : Int) (exc : Bool) :
    (SynchronizedDatabase.get_value st k exc).2.2 = [.acqRead, .relRead] ∧
    (SynchronizedDatabase.set_value st k v exc).2.2 = [.acqWrite, .relWrite] ∧
    (SynchronizedDatabase.delete_value st k exc).2.2 = [.acqWrite, .relWrite] := by
  cases exc <;>
    refine ⟨rfl, rfl, rfl⟩

/-! ### Generic sum-over-list lemmas for counting held resources -/

lemma sumMap_set {α : Type} (f : α → Nat) (l : List α) (i : Nat) (a b : α)
    (h : l.get? i = some a) :
    ((l.set i b).map f).sum + f a = (l.map f).sum + f b := by
  induction l generalizing i with
  | nil => simp [List.get?] at h
  | cons x t ih =>
      cases i with
      | zero =>
          simp only [List.get?] at h
          cases h
          simp only [List.set, List.map_cons, List.sum_cons]
          omega
      | succ i =>
          simp only [List.get?] at h
          have ih' := ih i h
          simp only [List.set, List.map_cons, List.sum_cons]
          omega

lemma sumMap_le_pointwise {α : Type} (f g : α → Nat) (h : ∀ p, g p ≤ f p)
    (l : List α) : (l.map g).sum ≤ (l.map f).sum := by
  induction l with
  | nil => simp
  | cons x t ih => simp only [List.map_cons, List.sum_cons]; exact Nat.add_le_add (h x) ih

lemma sumMap_ge_elem {α : Type} (f : α → Nat) (l : List α) (i : Nat) (a : α)
    (h : l.get? i = some a) : f a ≤ (l.map f).sum := by
  induction l generalizing i with
  | nil => simp [List.get?] at h
  | cons x t ih =>
      cases i with
      | zero => simp only [List.get?] at h; cases h; simp only [List.map_cons, List.sum_cons]; omega
      | succ i =>
          simp only [List.get?] at h
          have := ih i h
          simp only [List.map_cons, List.sum_cons]
          omega

lemma sumMap_add_le {α : Type} (f g : α → Nat) (hpt : ∀ p, g p ≤ f p)
    (l : List α) (i : Nat) (a : α) (h : l.get? i = some a) :
    (l.map g).sum + f a ≤ (l.map f).sum + g a := by
  induction l generalizing i with
  | nil => simp [List.get?] at h
  | cons x t ih =>
      cases i with
      | zero =>
          simp only [List.get?] at h
          cases h
          simp only [List.map_cons, List.sum_cons]
          have := sumMap_le_pointwise f g hpt t
          omega
      | succ i =>
          simp only [List.get?] at h
          have := ih i h
          have hx := hpt x
          simp only [List.map_cons, List.sum_cons]
          omega

lemma sumMap_eq_zero_elem {α : Type} (f : α → Nat) (l : List α) (i : Nat) (a : α)
    (hsum : (l.map f).sum = 0) (h : l.get? i = some a) : f a = 0 := by
  have := sumMap_ge_elem f l i a h
  omega

lemma get?_set_self {α : Type} {l : List α} {i : Nat} {a : α} (b : α)
    (h : l.get? i = some a) : (l.set i b).get? i = some b := by
  rw [List.get?_set_eq]
  rw [h]
  rfl

/-! ### Variant A gate: counting semaphore + write lock (sync_Database.py)

Each actor is a thread/process calling the four gate operations of
`SynchronizedDatabase`; every blocking primitive call is one atomic
transition.  `sem` is the number of free units of
`threading/multiprocessing.Semaphore(max_readers)`; `lock` records the
holder of `write_lock`. -/

/-- Control point of an actor using the Variant A gate:
`rWait`/`rIn` are `acquire_read_lock` (blocked on `semaphore.acquire()`)
and the read critical section; `wWait` is `acquire_write_lock` blocked on
`write_lock.acquire()`; `wDrain j` holds the write lock with `j` of the
`max_readers` semaphore units taken by the drain loop; `wIn` is the write
critical section; `wRel j` is `release_write_lock` having returned `j`
units, still holding the write lock. -/
inductive APc where
  | idle
  | rWait
  | rIn
  | wWait
  | wDrain (j : Nat)
  | wIn
  | wRel (j : Nat)
deriving DecidableEq, Repr

/-- Shared state of the Variant A gate plus the control points of a fixed
finite set of actors (actor `i` is index `i` of `pcs`). -/
structure AState where
  sem : Nat
  lock : Option Nat
  pcs : List APc
deriving DecidableEq, Repr

/-- One atomic transition of one actor against the Variant A gate, with
semaphore capacity `N = max_readers`.  `semaphore.acquire()` is enabled
only when a unit is free; `write_lock.acquire()` only when unheld. -/
inductive AStep (N : Nat) : AState → AState → Prop where
  | startRead (s : AState) (i : Nat) (h : s.pcs.get? i = some .idle) :
      AStep N s ⟨s.sem, s.lock, s.pcs.set i .rWait⟩
  | acqRead (s : AState) (i : Nat) (h : s.pcs.get? i = some .rWait)
      (hs : 0 < s.sem) :
      AStep N s ⟨s.sem - 1, s.lock, s.pcs.set i .rIn⟩
  | relRead (s : AState) (i : Nat) (h : s.pcs.get? i = some .rIn) :
      AStep N s ⟨s.sem + 1, s.lock, s.pcs.set i .idle⟩
  | startWrite (s : AState) (i : Nat) (h : s.pcs.get? i = some .idle) :
      AStep N s ⟨s.sem, s.lock, s.pcs.set i .wWait⟩
  | acqLock (s : AState) (i : Nat) (h : s.pcs.get? i = some .wWait)
      (hl : s.lock = none) :
      AStep N s ⟨s.sem, some i, s.pcs.set i (if N = 0 then .wIn else .wDrain 0)⟩
  | drain (s : AState) (i j : Nat) (h : s.pcs.get? i = some (.wDrain j))
      (hj : j < N) (hs : 0 < s.sem) :
      AStep N s
        ⟨s.sem - 1, s.lock, s.pcs.set i (if j + 1 = N then .wIn else .wDrain (j + 1))⟩
  | startRel (s : AState) (i : Nat) (h : s.pcs.get? i = some .wIn) :
      AStep N s ⟨s.sem, s.lock, s.pcs.set i (.wRel 0)⟩
  | relUnit (s : AState) (i j : Nat) (h : s.pcs.get? i = some (.wRel j))
      (hj : j < N) :
      AStep N s ⟨s.sem + 1, s.lock, s.pcs.set i (.wRel (j + 1))⟩
  | relLock (s : AState) (i : Nat) (h : s.pcs.get? i = some (.wRel N)) :
      AStep N s ⟨s.sem, none, s.pcs.set i .idle⟩

/-- Initial Variant A state: full semaphore, write lock free, `n` idle
actors. -/
def AInit (N n : Nat) : AState := ⟨N, none, List.replicate n .idle⟩

/-- States reachable by any interleaving of gate operations from the
initial Variant A state. -/
inductive ReachA (N n : Nat) : AState → Prop where
  | init : ReachA N n (AInit N n)
  | step {s t : AState} : ReachA N n s → AStep N s t → ReachA N n t

/-- Semaphore units held by an actor at the given control point. -/
def unitsOf (N : Nat) : APc → Nat
  | .rIn => 1
  | .wDrain j => j
  | .wIn => N
  | .wRel j => N - j
  | _ => 0

/-- Total semaphore units held across all actors. -/
def heldUnits (N : Nat) (s : AState) : Nat := (s.pcs.map (unitsOf N)).sum

/-- Number of actors currently inside a read critical section. -/
def readersIn (s : AState) : Nat :=
  (s.pcs.map fun p => if p = APc.rIn then 1 else 0).sum

/-- Whether an actor at this control point holds the write lock. -/
def holdsLock : APc → Bool
  | .wDrain _ => true
  | .wIn => true
  | .wRel _ => true
  | _ => false

/-- Bounds on the drain/release counters. -/
def pcBound (N : Nat) : APc → Prop
  | .wDrain j => j ≤ N
  | .wRel j => j ≤ N
  | _ => True

/-- Inductive invariant of the Variant A gate: semaphore units are
conserved, only the write-lock holder is in a lock-holding control
point, and the loop counters stay within `max_readers`. -/
def InvA (N : Nat) (s : AState) : Prop :=
  s.sem + heldUnits N s = N ∧
  (∀ i p, s.pcs.get? i = some p → holdsLock p = true → s.lock = some i) ∧
  (∀ i p, s.pcs.get? i = some p → pcBound N p)

lemma InvA_init (N n : Nat) : InvA N (AInit N n) := by
  refine ⟨?_, ?_, ?_⟩
  · simp [AInit, heldUnits, List.map_replicate, unitsOf]
  · intro i p hp hold
    have hmem := List.get?_mem hp
    have := List.eq_of_mem_replicate hmem
    subst this
    simp [holdsLock] at hold
  · intro i p hp
    have hmem := List.get?_mem hp
    have := List.eq_of_mem_replicate hmem
    subst this
    trivial

lemma hlock_set_of_ne {s : AState} {i : Nat} {b : APc} (lk : Option Nat)
    (hlock : ∀ i' p, s.pcs.get? i' = some p → holdsLock p = true → s.lock = some i')
    (hkeep : ∀ i', i' ≠ i → s.lock = some i' → lk = some i')
    (hb : holdsLock b = true → lk = some i) :
    ∀ i' p, (s.pcs.set i b).get? i' = some p → holdsLock p = true → lk = some i' := by
  intro i' p hp hold
  by_cases hii : i' = i
  · subst hii
    by_cases hlen : i' < s.pcs.length
    · rw [List.get?_set_eq_of_lt b hlen] at hp
      cases hp
      exact hb hold
    · rw [List.get?_eq_none.2 (by simpa using Nat.le_of_not_lt hlen)] at hp
      cases hp
  · rw [List.get?_set_ne b s.pcs (fun hh => hii hh.symm)] at hp
    exact hkeep i' hii (hlock i' p hp hold)

lemma hbound_set {N : Nat} {s : AState} {i : Nat} {b : APc}
    (hbound : ∀ i' p, s.pcs.get? i' = some p → pcBound N p)
    (hb : pcBound N b) :
    ∀ i' p, (s.pcs.set i b).get? i' = some p → pcBound N p := by
  intro i' p hp
  by_cases hii : i' = i
  · subst hii
    by_cases hlen : i' < s.pcs.length
    · rw [List.get?_set_eq_of_lt b hlen] at hp
      cases hp
      exact hb
    · rw [List.get?_eq_none.2 (by simpa using Nat.le_of_not_lt hlen)] at hp
      cases hp
  · rw [List.get?_set_ne b s.pcs (fun hh => hii hh.symm)] at hp
    exact hbound i' p hp

lemma InvA_step {N : Nat} {s t : AState} (hinv : InvA N s) (hst : AStep N s t) :
    InvA N t := by
  obtain ⟨hsum, hlock, hbound⟩ := hinv
  cases hst with
  | startRead i h =>
      have hs := sumMap_set (unitsOf N) s.pcs i _ APc.rWait h
      refine ⟨?_, ?_, ?_⟩
      · simp only [heldUnits] at hsum ⊢
        simp only [unitsOf] at hs
        omega
      · exact hlock_set_of_ne s.lock hlock (fun i' _ hli => hli)
          (fun hb => by simp [holdsLock] at hb)
      · exact hbound_set hbound trivial
  | acqRead i h hs0 =>
      have hs := sumMap_set (unitsOf N) s.pcs i _ APc.rIn h
      refine ⟨?_, ?_, ?_⟩
      · simp only [heldUnits] at hsum ⊢
        simp only [unitsOf] at hs
        omega
      · exact hlock_set_of_ne s.lock hlock (fun i' _ hli => hli)
          (fun hb => by simp [holdsLock] at hb)
      · exact hbound_set hbound trivial
  | relRead i h =>
      have hs := sumMap_set (unitsOf N) s.pcs i _ APc.idle h
      refine ⟨?_, ?_, ?_⟩
      · simp only [heldUnits] at hsum ⊢
        simp only [unitsOf] at hs
        omega
      · exact hlock_set_of_ne s.lock hlock (fun i' _ hli => hli)
          (fun hb => by simp [holdsLock] at hb)
      · exact hbound_set hbound trivial
  | startWrite i h =>
      have hs := sumMap_set (unitsOf N) s.pcs i _ APc.wWait h
      refine ⟨?_, ?_, ?_⟩
      · simp only [heldUnits] at hsum ⊢
        simp only [unitsOf] at hs
        omega
      · exact hlock_set_of_ne s.lock hlock (fun i' _ hli => hli)
          (fun hb => by simp [holdsLock] at hb)
      · exact hbound_set hbound trivial
  | acqLock i h hl =>
      have hs := sumMap_set (unitsOf N) s.pcs i _
        (if N = 0 then APc.wIn else APc.wDrain 0) h
      have hub : unitsOf N (if N = 0 then APc.wIn else APc.wDrain 0) = 0 := by
        split <;> simp [unitsOf] <;> omega
      refine ⟨?_, ?_, ?_⟩
      · rw [hub] at hs
        simp only [heldUnits] at hsum ⊢
        simp only [unitsOf] at hs
        omega
      · exact hlock_set_of_ne (some i) hlock
          (fun i' _ hli => by rw [hl] at hli; cases hli)
          (fun _ => rfl)
      · refine hbound_set hbound ?_
        split
        · trivial
        · exact Nat.zero_le N
  | drain i j h hj hs0 =>
      have hs := sumMap_set (unitsOf N) s.pcs i _
        (if j + 1 = N then APc.wIn else APc.wDrain (j + 1)) h
      have hub : unitsOf N (if j + 1 = N then APc.wIn else APc.wDrain (j + 1)) = j + 1 := by
        split <;> simp [unitsOf] <;> omega
      refine ⟨?_, ?_, ?_⟩
      · rw [hub] at hs
        simp only [heldUnits] at hsum ⊢
        simp only [unitsOf] at hs
        omega
      · exact hlock_set_of_ne s.lock hlock (fun i' _ hli => hli)
          (fun _ => hlock i _ h rfl)
      · refine hbound_set hbound ?_
        split
        · trivial
        · exact hj
  | startRel i h =>
      have hs := sumMap_set (unitsOf N) s.pcs i _ (APc.wRel 0) h
      refine ⟨?_, ?_, ?_⟩
      · simp only [heldUnits] at hsum ⊢
        simp only [unitsOf] at hs
        omega
      · exact hlock_set_of_ne s.lock hlock (fun i' _ hli => hli)
          (fun _ => hlock i _ h rfl)
      · exact hbound_set hbound (Nat.zero_le N)
  | relUnit i j h hj =>
      have hs := sumMap_set (unitsOf N) s.pcs i _ (APc.wRel (j + 1)) h
      refine ⟨?_, ?_, ?_⟩
      · simp only [heldUnits] at hsum ⊢
        simp only [unitsOf] at hs
        omega
      · exact hlock_set_of_ne s.lock hlock (fun i' _ hli => hli)
          (fun _ => hlock i _ h rfl)
      · exact hbound_set hbound hj
  | relLock i h =>
      have hs := sumMap_set (unitsOf N) s.pcs i _ APc.idle h
      refine ⟨?_, ?_, ?_⟩
      · simp only [heldUnits] at hsum ⊢
        simp only [unitsOf] at hs
        omega
      · refine hlock_set_of_ne none hlock (fun i' hne hli => ?_)
          (fun hb => by simp [holdsLock] at hb)
        rw [hlock i _ h rfl] at hli
        exact absurd (Option.some.inj hli).symm hne
      · exact hbound_set hbound trivial

lemma InvA_reach {N n : Nat} {s : AState} (h : ReachA N n s) : InvA N s := by
  induction h with
  | init => exact InvA_init N n
  | step _ hst ih => exact InvA_step ih hst

lemma A_wIn_sem_readers {N n : Nat} {s : AState} {i : Nat} (hr : ReachA N n s)
    (hi : s.pcs.get? i = some .wIn) : s.sem = 0 ∧ readersIn s = 0 := by
  obtain ⟨hsum, hlock, hbound⟩ := InvA_reach hr
  have hpt : ∀ p, (if p = APc.rIn then 1 else 0) ≤ unitsOf N p := by
    intro p
    cases p <;> simp [unitsOf]
  have e1 : s.sem + (s.pcs.map (unitsOf N)).sum = N := hsum
  have e2 : N ≤ (s.pcs.map (unitsOf N)).sum :=
    sumMap_ge_elem (unitsOf N) s.pcs i APc.wIn hi
  have e3 : (s.pcs.map fun p => if p = APc.rIn then 1 else 0).sum + N ≤
      (s.pcs.map (unitsOf N)).sum + 0 :=
    sumMap_add_le (unitsOf N) (fun p => if p = APc.rIn then 1 else 0)
      hpt s.pcs i APc.wIn hi
  have e4 : readersIn s = (s.pcs.map fun p => if p = APc.rIn then 1 else 0).sum := rfl
  rw [e4]
  omega

lemma A_wIn_no_reader {N n : Nat} {s : AState} {i j : Nat} (hr : ReachA N n s)
    (hi : s.pcs.get? i = some .wIn) (hj : s.pcs.get? j = some .rIn) : False := by
  have h0 : (s.pcs.map fun p => if p = APc.rIn then 1 else 0).sum = 0 :=
    (A_wIn_sem_readers hr hi).2
  have h1 : 1 ≤ (s.pcs.map fun p => if p = APc.rIn then 1 else 0).sum :=
    sumMap_ge_elem (fun p => if p = APc.rIn then 1 else 0) s.pcs j APc.rIn hj
  omega

lemma A_wIn_unique {N n : Nat} {s : AState} {i j : Nat} (hr : ReachA N n s)
    (hi : s.pcs.get? i = some .wIn) (hj : s.pcs.get? j = some .wIn) : i = j := by
  obtain ⟨_, hlock, _⟩ := InvA_reach hr
  have h1 := hlock i _ hi rfl
  have h2 := hlock j _ hj rfl
  rw [h1] at h2
  exact Option.some.inj h2

/-- A short Variant A schedule: one reader enters its critical section,
then a writer takes the write lock and begins the semaphore drain. -/
lemma reachA_rw_demo : ReachA 10 2 ⟨9, some 1, [APc.rIn, APc.wDrain 0]⟩ := by
  have r0 : ReachA 10 2 ⟨10, none, [APc.idle, APc.idle]⟩ := ReachA.init
  have r1 : ReachA 10 2 ⟨10, none, [APc.rWait, APc.idle]⟩ :=
    r0.step (AStep.startRead _ 0 rfl)
  have r2 : ReachA 10 2 ⟨9, none, [APc.rIn, APc.idle]⟩ :=
    r1.step (AStep.acqRead _ 0 rfl (by decide))
  have r3 : ReachA 10 2 ⟨9, none, [APc.rIn, APc.wWait]⟩ :=
    r2.step (AStep.startWrite _ 1 rfl)
  exact r3.step (AStep.acqLock _ 1 rfl rfl)

/-- A lone writer that has just taken the write lock (capacity 1). -/
lemma reachA_wDrain_demo : ReachA 1 1 ⟨1, some 0, [APc.wDrain 0]⟩ := by
  have r0 : ReachA 1 1 ⟨1, none, [APc.idle]⟩ := ReachA.init
  have r1 : ReachA 1 1 ⟨1, none, [APc.wWait]⟩ :=
    r0.step (AStep.startWrite _ 0 rfl)
  exact r1.step (AStep.acqLock _ 0 rfl rfl)

/-- A lone writer inside its write critical section (capacity 1). -/
lemma reachA_wIn_demo : ReachA 1 1 ⟨0, some 0, [APc.wIn]⟩ :=
  reachA_wDrain_demo.step (AStep.drain _ 0 0 rfl (by decide) (by decide))

/-- C1 counterexample: in Variant A a state is reachable (reader inside
its critical section, writer mid-drain) in which the write lock is held
by a writer while `reader_count > 0` — the claim's "writer active =
write lock held" condition and "a reader is inside" hold simultaneously,
refuting the claimed mutual exclusion in that literal reading. -/
theorem C1_counterexample :
    ReachA 10 2 ⟨9, some 1, [APc.rIn, APc.wDrain 0]⟩ ∧
    (⟨9, some 1, [APc.rIn, APc.wDrain 0]⟩ : AState).pcs.get? 1 =
      some (APc.wDrain 0) ∧
    holdsLock (APc.wDrain 0) = true ∧
    (⟨9, some 1, [APc.rIn, APc.wDrain 0]⟩ : AState).lock = some 1 ∧
    0 < readersIn ⟨9, some 1, [APc.rIn, APc.wDrain 0]⟩ :=
  ⟨reachA_rw_demo, rfl, rfl, rfl, by decide⟩

/-- C8: in Variant A, a writer drains the semaphore only while holding
the write lock and takes at most `max_readers` units (`wDrain`); when
`acquire_write_lock` has returned (`wIn`) the writer holds the lock and
no semaphore unit remains for any reader; and once every actor is idle
again (all units returned by `release_write_lock`), the semaphore is
back at full capacity `N = max_readers`. -/
theorem C8_write_lock_algorithm :
    (∀ N n : Nat, ∀ s : AState, ∀ i j : Nat, ReachA N n s →
      s.pcs.get? i = some (.wDrain j) → s.lock = some i ∧ j ≤ N) ∧
    (∀ N n : Nat, ∀ s : AState, ∀ i : Nat, ReachA N n s →
      s.pcs.get? i = some .wIn → s.lock = some i ∧ s.sem = 0) ∧
    (∀ N n : Nat, ∀ s : AState, ReachA N n s →
      (∀ p ∈ s.pcs, p = APc.idle) → s.sem = N) := by
  refine ⟨?_, ?_, ?_⟩
  · intro N n s i j hr hi
    obtain ⟨hsum, hlock, hbound⟩ := InvA_reach hr
    exact ⟨hlock i _ hi rfl, hbound i _ hi⟩
  · intro N n s i hr hi
    obtain ⟨hsum, hlock, hbound⟩ := InvA_reach hr
    exact ⟨hlock i _ hi rfl, (A_wIn_sem_readers hr hi).1⟩
  · intro N n s hr hall
    obtain ⟨hsum, _, _⟩ := InvA_reach hr
    have hz : heldUnits N s = 0 := by
      apply List.sum_eq_zero
      intro x hx
      obtain ⟨p, hp, hfx⟩ := List.mem_map.1 hx
      rw [← hfx, hall p hp]
      rfl
    omega

theorem C8_write_lock_algorithm_witness :
    ((⟨1, some 0, [APc.wDrain 0]⟩ : AState).lock = some 0 ∧ 0 ≤ 1) ∧
    ((⟨0, some 0, [APc.wIn]⟩ : AState).lock = some 0 ∧
      (⟨0, some 0, [APc.wIn]⟩ : AState).sem = 0) ∧
    (AInit 10 3).sem = 10 :=
  ⟨C8_write_lock_algorithm.1 1 1 _ 0 0 reachA_wDrain_demo rfl,
   C8_write_lock_algorithm.2.1 1 1 _ 0 reachA_wIn_demo rfl,
   C8_write_lock_algorithm.2.2 10 3 _ ReachA.init (by decide)⟩

/-! ### Variant B gate: auto-reset event + mutex + reader count (winapi.py)

`acquire_read_lock` is: wait `write_mutex`; `reader_count += 1`; if it
became 1, wait (consume) `read_event`; release the mutex.
`release_read_semaphore` is: wait the mutex; `reader_count -= 1`; if it
became 0, set `read_event`; release the mutex.  `acquire_write_lock` is:
wait (consume) `read_event`, then wait the mutex; `release_write_lock`
releases the mutex and then sets the event.  Every primitive call is one
atomic transition. -/

/-- Control point of an actor using the Variant B gate.  `rMtx`/`rInc`/
`rEvt`/`rRelM1` are the four primitive calls of `acquire_read_lock`
(waiting for the mutex, about to increment, first reader waiting to
consume the event, about to release the mutex); `rIn` is the read
critical section; `rMtx2`/`rDec`/`rSet`/`rRelM2` are the primitive calls
of `release_read_semaphore`; `wEvt`/`wMtx` are `acquire_write_lock`
waiting for the event resp. the mutex; `wIn` is the write critical
section; `wSet` is `release_write_lock` about to set the event (mutex
already released). -/
inductive BPc where
  | idle
  | rMtx
  | rInc
  | rEvt
  | rRelM1
  | rIn
  | rMtx2
  | rDec
  | rSet
  | rRelM2
  | wEvt
  | wMtx
  | wIn
  | wSet
deriving DecidableEq, Repr

/-- Shared state of the Variant B gate: `mutex` records the holder of
`write_mutex`, `event` whether `read_event` is signaled, `count` the
shared `reader_count` (a Python int), plus all actors' control points. -/
structure BState where
  mutex : Option Nat
  event : Bool
  count : Int
  pcs : List BPc
deriving DecidableEq, Repr

/-- One atomic transition of one actor against the Variant B gate.
`WaitForSingleObject` on the mutex is enabled when it is unheld; on the
auto-reset event when it is signaled, and consuming resets it;
`SetEvent` signals it; `ReleaseMutex` frees it. -/
inductive BStep : BState → BState → Prop where
  | startRead (s : BState) (i : Nat) (h : s.pcs.get? i = some .idle) :
      BStep s ⟨s.mutex, s.event, s.count, s.pcs.set i .rMtx⟩
  | rAcqM (s : BState) (i : Nat) (h : s.pcs.get? i = some .rMtx)
      (hm : s.mutex = none) :
      BStep s ⟨some i, s.event, s.count, s.pcs.set i .rInc⟩
  | rIncStep (s : BState) (i : Nat) (h : s.pcs.get? i = some .rInc) :
      BStep s ⟨s.mutex, s.event, s.count + 1,
        s.pcs.set i (if s.count + 1 = 1 then .rEvt else .rRelM1)⟩
  | rConsume (s : BState) (i : Nat) (h : s.pcs.get? i = some .rEvt)
      (he : s.event = true) :
      BStep s ⟨s.mutex, false, s.count, s.pcs.set i .rRelM1⟩
  | rRelMutex1 (s : BState) (i : Nat) (h : s.pcs.get? i = some .rRelM1) :
      BStep s ⟨none, s.event, s.count, s.pcs.set i .rIn⟩
  | startRel (s : BState) (i : Nat) (h : s.pcs.get? i = some .rIn) :
      BStep s ⟨s.mutex, s.event, s.count, s.pcs.set i .rMtx2⟩
  | rAcqM2 (s : BState) (i : Nat) (h : s.pcs.get? i = some .rMtx2)
      (hm : s.mutex = none) :
      BStep s ⟨some i, s.event, s.count, s.pcs.set i .rDec⟩
  | rDecStep (s : BState) (i : Nat) (h : s.pcs.get? i = some .rDec) :
      BStep s ⟨s.mutex, s.event, s.count - 1,
        s.pcs.set i (if s.count - 1 = 0 then .rSet else .rRelM2)⟩
  | rSetEv (s : BState) (i : Nat) (h : s.pcs.get? i = some .rSet) :
      BStep s ⟨s.mutex, true, s.count, s.pcs.set i .rRelM2⟩
  | rRelMutex2 (s : BState) (i : Nat) (h : s.pcs.get? i = some .rRelM2) :
      BStep s ⟨none, s.event, s.count, s.pcs.set i .idle⟩
  | startWrite (s : BState) (i : Nat) (h : s.pcs.get? i = some .idle) :
      BStep s ⟨s.mutex, s.event, s.count, s.pcs.set i .wEvt⟩
  | wConsume (s : BState) (i : Nat) (h : s.pcs.get? i = some .wEvt)
      (he : s.event = true) :
      BStep s ⟨s.mutex, false, s.count, s.pcs.set i .wMtx⟩
  | wAcqM (s : BState) (i : Nat) (h : s.pcs.get? i = some .wMtx)
      (hm : s.mutex = none) :
      BStep s ⟨some i, s.event, s.count, s.pcs.set i .wIn⟩
  | wRelMutex (s : BState) (i : Nat) (h : s.pcs.get? i = some .wIn) :
      BStep s ⟨none, s.event, s.count, s.pcs.set i .wSet⟩
  | wSetEv (s : BState) (i : Nat) (h : s.pcs.get? i = some .wSet) :
      BStep s ⟨s.mutex, true, s.count, s.pcs.set i .idle⟩

/-- Initial Variant B state: mutex free, event signaled,
`reader_count = 0`, `n` idle actors. -/
def BInit (n : Nat) : BState := ⟨none, true, 0, List.replicate n .idle⟩

/-- States reachable by any interleaving of gate operations from the
initial Variant B state. -/
inductive ReachB (n : Nat) : BState → Prop where
  | init : ReachB n (BInit n)
  | step {s t : BState} : ReachB n s → BStep s t → ReachB n t

/-- Actors counted by `reader_count`: those between their increment and
their decrement. -/
def countedB : BPc → Nat
  | .rEvt => 1
  | .rRelM1 => 1
  | .rIn => 1
  | .rMtx2 => 1
  | .rDec => 1
  | _ => 0

/-- Whether an actor at this control point holds `write_mutex`. -/
def holdsMutex : BPc → Bool
  | .rInc => true
  | .rEvt => true
  | .rRelM1 => true
  | .rDec => true
  | .rSet => true
  | .rRelM2 => true
  | .wIn => true
  | _ => false

/-- Writers holding the consumed event token (between their consume of
`read_event` and their re-`SetEvent`). -/
def tokenW : BPc → Nat
  | .wMtx => 1
  | .wIn => 1
  | .wSet => 1
  | _ => 0

/-- Readers obligated to re-set the event (`reader_count` hit 0). -/
def tokenS : BPc → Nat
  | .rSet => 1
  | _ => 0

/-- First readers waiting to consume the event. -/
def firstWait : BPc → Nat
  | .rEvt => 1
  | _ => 0

/-- Value of `reader_count` implied by the control points. -/
def cntB (s : BState) : Nat := (s.pcs.map countedB).sum

/-- Number of writers holding the event token. -/
def wTok (s : BState) : Nat := (s.pcs.map tokenW).sum

/-- Number of readers obligated to re-set the event. -/
def sTok (s : BState) : Nat := (s.pcs.map tokenS).sum

/-- Number of first readers waiting on the event. -/
def fWait (s : BState) : Nat := (s.pcs.map firstWait).sum

/-- The reader cohort holds the event token once some counted reader has
consumed it (no first reader still waiting). -/
def cohort (s : BState) : Nat :=
  if 0 < cntB s ∧ fWait s = 0 then 1 else 0

/-- The signaled event as a token. -/
def evTok (s : BState) : Nat := if s.event then 1 else 0

/-- Number of actors inside a read critical section. -/
def readersInB (s : BState) : Nat :=
  (s.pcs.map fun p => if p = BPc.rIn then 1 else 0).sum

lemma cohort_congr {s t : BState} (h1 : cntB t = cntB s)
    (h2 : fWait t = fWait s) : cohort t = cohort s := by
  unfold cohort
  rw [h1, h2]

lemma cohort_eq_one {s : BState} (h1 : 0 < cntB s) (h2 : fWait s = 0) :
    cohort s = 1 := by
  unfold cohort
  split <;> omega

lemma cohort_eq_zero_left {s : BState} (h : cntB s = 0) : cohort s = 0 := by
  unfold cohort
  split <;> omega

lemma cohort_eq_zero_right {s : BState} (h : 0 < fWait s) : cohort s = 0 := by
  unfold cohort
  split <;> omega

lemma cohort_le_one (s : BState) : cohort s ≤ 1 := by
  unfold cohort
  split <;> omega

/-- Inductive invariant of the Variant B gate: `reader_count` counts the
readers between increment and decrement, only the mutex holder is at a
mutex-holding control point, and exactly one of the four event-token
positions holds (signaled event, a writer, an obligated reader, or the
reader cohort). -/
def InvB (s : BState) : Prop :=
  s.count = (cntB s : Int) ∧
  (∀ i p, s.pcs.get? i = some p → holdsMutex p = true → s.mutex = some i) ∧
  evTok s + wTok s + sTok s + cohort s = 1

lemma InvB_init (n : Nat) : InvB (BInit n) := by
  refine ⟨?_, ?_, ?_⟩
  · simp [BInit, cntB, List.map_replicate, countedB]
  · intro i p hp hold
    have hmem := List.get?_mem hp
    have := List.eq_of_mem_replicate hmem
    subst this
    simp [holdsMutex] at hold
  · have hc : cntB (BInit n) = 0 := by
      simp [BInit, cntB, List.map_replicate, countedB]
    rw [cohort_eq_zero_left hc]
    simp [BInit, evTok, wTok, sTok, List.map_replicate, tokenW, tokenS]

lemma hmutex_set_of_ne {s : BState} {i : Nat} {b : BPc} (lk : Option Nat)
    (hlock : ∀ i' p, s.pcs.get? i' = some p → holdsMutex p = true →
      s.mutex = some i')
    (hkeep : ∀ i', i' ≠ i → s.mutex = some i' → lk = some i')
    (hb : holdsMutex b = true → lk = some i) :
    ∀ i' p, (s.pcs.set i b).get? i' = some p → holdsMutex p = true →
      lk = some i' := by
  intro i' p hp hold
  by_cases hii : i' = i
  · subst hii
    by_cases hlen : i' < s.pcs.length
    · rw [List.get?_set_eq_of_lt b hlen] at hp
      cases hp
      exact hb hold
    · rw [List.get?_eq_none.2 (by simpa using Nat.le_of_not_lt hlen)] at hp
      cases hp
  · rw [List.get?_set_ne b s.pcs (fun hh => hii hh.symm)] at hp
    exact hkeep i' hii (hlock i' p hp hold)

lemma sumMap_pos_elem {α : Type} (f : α → Nat) (l : List α)
    (h : 0 < (l.map f).sum) : ∃ i a, l.get? i = some a ∧ 0 < f a := by
  induction l with
  | nil => simp at h
  | cons x t ih =>
      simp only [List.map_cons, List.sum_cons] at h
      by_cases hx : 0 < f x
      · exact ⟨0, x, rfl, hx⟩
      · obtain ⟨i, a, hi, ha⟩ := ih (by omega)
        exact ⟨i + 1, a, hi, ha⟩

/-- If some actor holds the mutex at a control point other than `rEvt`,
then no actor is at `rEvt` (which also holds the mutex). -/
lemma fWait_zero_of_holder {s : BState} {i : Nat} {a : BPc}
    (h : s.pcs.get? i = some a)
    (hm : ∀ i' p, s.pcs.get? i' = some p → holdsMutex p = true →
      s.mutex = some i')
    (ha : holdsMutex a = true) (hna : firstWait a = 0) : fWait s = 0 := by
  by_contra hne
  obtain ⟨j, p, hj, hp⟩ := sumMap_pos_elem firstWait s.pcs
    (Nat.pos_of_ne_zero hne)
  have hpe : p = BPc.rEvt := by
    cases p <;> (try rfl) <;> simp [firstWait] at hp
  subst hpe
  have h1 := hm j _ hj rfl
  have h2 := hm i a h ha
  rw [h1] at h2
  cases Option.some.inj h2
  rw [h] at hj
  cases Option.some.inj hj
  simp [firstWait] at hna

lemma clause1_set {s : BState} {i : Nat} {a b : BPc} (m' : Option Nat) (e' : Bool)
    (h : s.pcs.get? i = some a) (h1 : s.count = (cntB s : Int))
    (hcb : countedB b = countedB a) :
    (⟨m', e', s.count, s.pcs.set i b⟩ : BState).count =
      (cntB ⟨m', e', s.count, s.pcs.set i b⟩ : Int) := by
  have hc := sumMap_set countedB s.pcs i a b h
  have e1 : cntB ⟨m', e', s.count, s.pcs.set i b⟩ =
      ((s.pcs.set i b).map countedB).sum := rfl
  have e2 : cntB s = (s.pcs.map countedB).sum := rfl
  show s.count = (cntB ⟨m', e', s.count, s.pcs.set i b⟩ : Int)
  omega

lemma clause3_neutral {s : BState} {i : Nat} {a b : BPc} (m' : Option Nat) (c' : Int)
    (h : s.pcs.get? i = some a)
    (h3 : evTok s + wTok s + sTok s + cohort s = 1)
    (hcb : countedB b = countedB a) (hwb : tokenW b = tokenW a)
    (hsb : tokenS b = tokenS a) (hfb : firstWait b = firstWait a) :
    evTok ⟨m', s.event, c', s.pcs.set i b⟩ + wTok ⟨m', s.event, c', s.pcs.set i b⟩ +
      sTok ⟨m', s.event, c', s.pcs.set i b⟩ +
      cohort ⟨m', s.event, c', s.pcs.set i b⟩ = 1 := by
  have hc := sumMap_set countedB s.pcs i a b h
  have hw := sumMap_set tokenW s.pcs i a b h
  have hs2 := sumMap_set tokenS s.pcs i a b h
  have hf := sumMap_set firstWait s.pcs i a b h
  have hcnt : cntB ⟨m', s.event, c', s.pcs.set i b⟩ = cntB s := by
    show ((s.pcs.set i b).map countedB).sum = (s.pcs.map countedB).sum
    omega
  have hfw : fWait ⟨m', s.event, c', s.pcs.set i b⟩ = fWait s := by
    show ((s.pcs.set i b).map firstWait).sum = (s.pcs.map firstWait).sum
    omega
  have hco := cohort_congr hcnt hfw
  have hwt : wTok ⟨m', s.event, c', s.pcs.set i b⟩ = wTok s := by
    show ((s.pcs.set i b).map tokenW).sum = (s.pcs.map tokenW).sum
    omega
  have hst : sTok ⟨m', s.event, c', s.pcs.set i b⟩ = sTok s := by
    show ((s.pcs.set i b).map tokenS).sum = (s.pcs.map tokenS).sum
    omega
  have hev : evTok ⟨m', s.event, c', s.pcs.set i b⟩ = evTok s := rfl
  rw [hev, hwt, hst, hco]
  exact h3

lemma InvB_step {s t : BState} (hinv : InvB s) (hst : BStep s t) : InvB t := by
  obtain ⟨h1, hlock, h3⟩ := hinv
  cases hst with
  | startRead i h =>
      refine ⟨clause1_set _ _ h h1 rfl, ?_, clause3_neutral _ _ h h3 rfl rfl rfl rfl⟩
      exact hmutex_set_of_ne s.mutex hlock (fun i' _ hli => hli)
        (fun hb => by simp [holdsMutex] at hb)
  | rAcqM i h hm =>
      refine ⟨clause1_set _ _ h h1 rfl, ?_, clause3_neutral _ _ h h3 rfl rfl rfl rfl⟩
      exact hmutex_set_of_ne (some i) hlock
        (fun i' _ hli => by rw [hm] at hli; cases hli) (fun _ => rfl)
  | rIncStep i h =>
      by_cases hone : s.count + 1 = 1
      · rw [if_pos hone]
        have hc := sumMap_set countedB s.pcs i _ BPc.rEvt h
        have hw := sumMap_set tokenW s.pcs i _ BPc.rEvt h
        have hs2 := sumMap_set tokenS s.pcs i _ BPc.rEvt h
        have hf := sumMap_set firstWait s.pcs i _ BPc.rEvt h
        simp only [countedB, tokenW, tokenS, firstWait] at hc hw hs2 hf
        have hm' : ∀ i' p, (s.pcs.set i BPc.rEvt).get? i' = some p →
            holdsMutex p = true → s.mutex = some i' :=
          hmutex_set_of_ne s.mutex hlock (fun i' _ hli => hli)
            (fun _ => hlock i _ h rfl)
        have eCntT : cntB ⟨s.mutex, s.event, s.count + 1, s.pcs.set i BPc.rEvt⟩ =
            ((s.pcs.set i BPc.rEvt).map countedB).sum := rfl
        have eCntS : cntB s = (s.pcs.map countedB).sum := rfl
        have eFwT : fWait ⟨s.mutex, s.event, s.count + 1, s.pcs.set i BPc.rEvt⟩ =
            ((s.pcs.set i BPc.rEvt).map firstWait).sum := rfl
        have eFwS : fWait s = (s.pcs.map firstWait).sum := rfl
        have eWT : wTok ⟨s.mutex, s.event, s.count + 1, s.pcs.set i BPc.rEvt⟩ =
            ((s.pcs.set i BPc.rEvt).map tokenW).sum := rfl
        have eWS : wTok s = (s.pcs.map tokenW).sum := rfl
        have eST : sTok ⟨s.mutex, s.event, s.count + 1, s.pcs.set i BPc.rEvt⟩ =
            ((s.pcs.set i BPc.rEvt).map tokenS).sum := rfl
        have eSS : sTok s = (s.pcs.map tokenS).sum := rfl
        have eET : evTok ⟨s.mutex, s.event, s.count + 1, s.pcs.set i BPc.rEvt⟩ =
            evTok s := rfl
        have hcoS : cohort s = 0 := cohort_eq_zero_left (by omega)
        have hcoT : cohort ⟨s.mutex, s.event, s.count + 1, s.pcs.set i BPc.rEvt⟩ = 0 :=
          cohort_eq_zero_right (by omega)
        refine ⟨?_, hm', ?_⟩
        · show s.count + 1 =
            (cntB ⟨s.mutex, s.event, s.count + 1, s.pcs.set i BPc.rEvt⟩ : Int)
          omega
        · omega
      · rw [if_neg hone]
        have hc := sumMap_set countedB s.pcs i _ BPc.rRelM1 h
        have hw := sumMap_set tokenW s.pcs i _ BPc.rRelM1 h
        have hs2 := sumMap_set tokenS s.pcs i _ BPc.rRelM1 h
        have hf := sumMap_set firstWait s.pcs i _ BPc.rRelM1 h
        simp only [countedB, tokenW, tokenS, firstWait] at hc hw hs2 hf
        have hm' : ∀ i' p, (s.pcs.set i BPc.rRelM1).get? i' = some p →
            holdsMutex p = true → s.mutex = some i' :=
          hmutex_set_of_ne s.mutex hlock (fun i' _ hli => hli)
            (fun _ => hlock i _ h rfl)
        have hfwS : fWait s = 0 := fWait_zero_of_holder h hlock rfl rfl
        have eCntT : cntB ⟨s.mutex, s.event, s.count + 1, s.pcs.set i BPc.rRelM1⟩ =
            ((s.pcs.set i BPc.rRelM1).map countedB).sum := rfl
        have eCntS : cntB s = (s.pcs.map countedB).sum := rfl
        have eFwT : fWait ⟨s.mutex, s.event, s.count + 1, s.pcs.set i BPc.rRelM1⟩ =
            ((s.pcs.set i BPc.rRelM1).map firstWait).sum := rfl
        have eFwS : fWait s = (s.pcs.map firstWait).sum := rfl
        have eWT : wTok ⟨s.mutex, s.event, s.count + 1, s.pcs.set i BPc.rRelM1⟩ =
            ((s.pcs.set i BPc.rRelM1).map tokenW).sum := rfl
        have eWS : wTok s = (s.pcs.map tokenW).sum := rfl
        have eST : sTok ⟨s.mutex, s.event, s.count + 1, s.pcs.set i BPc.rRelM1⟩ =
            ((s.pcs.set i BPc.rRelM1).map tokenS).sum := rfl
        have eSS : sTok s = (s.pcs.map tokenS).sum := rfl
        have eET : evTok ⟨s.mutex, s.event, s.count + 1, s.pcs.set i BPc.rRelM1⟩ =
            evTok s := rfl
        have hcoS : cohort s = 1 := cohort_eq_one (by omega) hfwS
        have hcoT : cohort ⟨s.mutex, s.event, s.count + 1, s.pcs.set i BPc.rRelM1⟩ = 1 :=
          cohort_eq_one (by omega) (by omega)
        refine ⟨?_, hm', ?_⟩
        · show s.count + 1 =
            (cntB ⟨s.mutex, s.event, s.count + 1, s.pcs.set i BPc.rRelM1⟩ : Int)
          omega
        · omega
  | rConsume i h he =>
      have hc := sumMap_set countedB s.pcs i _ BPc.rRelM1 h
      have hw := sumMap_set tokenW s.pcs i _ BPc.rRelM1 h
      have hs2 := sumMap_set tokenS s.pcs i _ BPc.rRelM1 h
      have hf := sumMap_set firstWait s.pcs i _ BPc.rRelM1 h
      simp only [countedB, tokenW, tokenS, firstWait] at hc hw hs2 hf
      have hm' : ∀ i' p, (s.pcs.set i BPc.rRelM1).get? i' = some p →
          holdsMutex p = true → s.mutex = some i' :=
        hmutex_set_of_ne s.mutex hlock (fun i' _ hli => hli)
          (fun _ => hlock i _ h rfl)
      have hfwT : fWait ⟨s.mutex, false, s.count, s.pcs.set i BPc.rRelM1⟩ = 0 :=
        @fWait_zero_of_holder ⟨s.mutex, false, s.count, s.pcs.set i BPc.rRelM1⟩ i
          BPc.rRelM1 (get?_set_self BPc.rRelM1 h) hm' rfl rfl
      have hcT : 1 ≤ ((s.pcs.set i BPc.rRelM1).map countedB).sum :=
        sumMap_ge_elem countedB _ i BPc.rRelM1 (get?_set_self BPc.rRelM1 h)
      have eCntT : cntB ⟨s.mutex, false, s.count, s.pcs.set i BPc.rRelM1⟩ =
          ((s.pcs.set i BPc.rRelM1).map countedB).sum := rfl
      have eCntS : cntB s = (s.pcs.map countedB).sum := rfl
      have eFwT : fWait ⟨s.mutex, false, s.count, s.pcs.set i BPc.rRelM1⟩ =
          ((s.pcs.set i BPc.rRelM1).map firstWait).sum := rfl
      have eFwS : fWait s = (s.pcs.map firstWait).sum := rfl
      have eWT : wTok ⟨s.mutex, false, s.count, s.pcs.set i BPc.rRelM1⟩ =
          ((s.pcs.set i BPc.rRelM1).map tokenW).sum := rfl
      have eWS : wTok s = (s.pcs.map tokenW).sum := rfl
      have eST : sTok ⟨s.mutex, false, s.count, s.pcs.set i BPc.rRelM1⟩ =
          ((s.pcs.set i BPc.rRelM1).map tokenS).sum := rfl
      have eSS : sTok s = (s.pcs.map tokenS).sum := rfl
      have eET : evTok ⟨s.mutex, false, s.count, s.pcs.set i BPc.rRelM1⟩ = 0 := rfl
      have eES : evTok s = 1 := by simp [evTok, he]
      have hcoT : cohort ⟨s.mutex, false, s.count, s.pcs.set i BPc.rRelM1⟩ = 1 :=
        cohort_eq_one (by omega) hfwT
      have hfS1 : 1 ≤ (s.pcs.map firstWait).sum :=
        sumMap_ge_elem firstWait s.pcs i BPc.rEvt h
      have hcoS : cohort s = 0 := cohort_eq_zero_right (by omega)
      refine ⟨clause1_set _ _ h h1 rfl, hm', by omega⟩
  | rRelMutex1 i h =>
      refine ⟨clause1_set _ _ h h1 rfl, ?_, clause3_neutral _ _ h h3 rfl rfl rfl rfl⟩
      refine hmutex_set_of_ne none hlock (fun i' hne hli => ?_)
        (fun hb => by simp [holdsMutex] at hb)
      rw [hlock i _ h rfl] at hli
      exact absurd (Option.some.inj hli).symm hne
  | startRel i h =>
      refine ⟨clause1_set _ _ h h1 rfl, ?_, clause3_neutral _ _ h h3 rfl rfl rfl rfl⟩
      exact hmutex_set_of_ne s.mutex hlock (fun i' _ hli => hli)
        (fun hb => by simp [holdsMutex] at hb)
  | rAcqM2 i h hm =>
      refine ⟨clause1_set _ _ h h1 rfl, ?_, clause3_neutral _ _ h h3 rfl rfl rfl rfl⟩
      exact hmutex_set_of_ne (some i) hlock
        (fun i' _ hli => by rw [hm] at hli; cases hli) (fun _ => rfl)
  | rDecStep i h =>
      have hfwS : fWait s = 0 := fWait_zero_of_holder h hlock rfl rfl
      have hcS1 : 1 ≤ (s.pcs.map countedB).sum :=
        sumMap_ge_elem countedB s.pcs i BPc.rDec h
      have eCntS : cntB s = (s.pcs.map countedB).sum := rfl
      have eFwS : fWait s = (s.pcs.map firstWait).sum := rfl
      have eWS : wTok s = (s.pcs.map tokenW).sum := rfl
      have eSS : sTok s = (s.pcs.map tokenS).sum := rfl
      have hcoS : cohort s = 1 := cohort_eq_one (by omega) hfwS
      by_cases hzero : s.count - 1 = 0
      · rw [if_pos hzero]
        have hc := sumMap_set countedB s.pcs i _ BPc.rSet h
        have hw := sumMap_set tokenW s.pcs i _ BPc.rSet h
        have hs2 := sumMap_set tokenS s.pcs i _ BPc.rSet h
        have hf := sumMap_set firstWait s.pcs i _ BPc.rSet h
        simp only [countedB, tokenW, tokenS, firstWait] at hc hw hs2 hf
        have hm' : ∀ i' p, (s.pcs.set i BPc.rSet).get? i' = some p →
            holdsMutex p = true → s.mutex = some i' :=
          hmutex_set_of_ne s.mutex hlock (fun i' _ hli => hli)
            (fun _ => hlock i _ h rfl)
        have eCntT : cntB ⟨s.mutex, s.event, s.count - 1, s.pcs.set i BPc.rSet⟩ =
            ((s.pcs.set i BPc.rSet).map countedB).sum := rfl
        have eFwT : fWait ⟨s.mutex, s.event, s.count - 1, s.pcs.set i BPc.rSet⟩ =
            ((s.pcs.set i BPc.rSet).map firstWait).sum := rfl
        have eWT : wTok ⟨s.mutex, s.event, s.count - 1, s.pcs.set i BPc.rSet⟩ =
            ((s.pcs.set i BPc.rSet).map tokenW).sum := rfl
        have eST : sTok ⟨s.mutex, s.event, s.count - 1, s.pcs.set i BPc.rSet⟩ =
            ((s.pcs.set i BPc.rSet).map tokenS).sum := rfl
        have eET : evTok ⟨s.mutex, s.event, s.count - 1, s.pcs.set i BPc.rSet⟩ =
            evTok s := rfl
        have hcoT : cohort ⟨s.mutex, s.event, s.count - 1, s.pcs.set i BPc.rSet⟩ = 0 :=
          cohort_eq_zero_left (by omega)
        refine ⟨?_, hm', ?_⟩
        · show s.count - 1 =
            (cntB ⟨s.mutex, s.event, s.count - 1, s.pcs.set i BPc.rSet⟩ : Int)
          omega
        · omega
      · rw [if_neg hzero]
        have hc := sumMap_set countedB s.pcs i _ BPc.rRelM2 h
        have hw := sumMap_set tokenW s.pcs i _ BPc.rRelM2 h
        have hs2 := sumMap_set tokenS s.pcs i _ BPc.rRelM2 h
        have hf := sumMap_set firstWait s.pcs i _ BPc.rRelM2 h
        simp only [countedB, tokenW, tokenS, firstWait] at hc hw hs2 hf
        have hm' : ∀ i' p, (s.pcs.set i BPc.rRelM2).get? i' = some p →
            holdsMutex p = true → s.mutex = some i' :=
          hmutex_set_of_ne s.mutex hlock (fun i' _ hli => hli)
            (fun _ => hlock i _ h rfl)
        have eCntT : cntB ⟨s.mutex, s.event, s.count - 1, s.pcs.set i BPc.rRelM2⟩ =
            ((s.pcs.set i BPc.rRelM2).map countedB).sum := rfl
        have eFwT : fWait ⟨s.mutex, s.event, s.count - 1, s.pcs.set i BPc.rRelM2⟩ =
            ((s.pcs.set i BPc.rRelM2).map firstWait).sum := rfl
        have eWT : wTok ⟨s.mutex, s.event, s.count - 1, s.pcs.set i BPc.rRelM2⟩ =
            ((s.pcs.set i BPc.rRelM2).map tokenW).sum := rfl
        have eST : sTok ⟨s.mutex, s.event, s.count - 1, s.pcs.set i BPc.rRelM2⟩ =
            ((s.pcs.set i BPc.rRelM2).map tokenS).sum := rfl
        have eET : evTok ⟨s.mutex, s.event, s.count - 1, s.pcs.set i BPc.rRelM2⟩ =
            evTok s := rfl
        have hcoT : cohort ⟨s.mutex, s.event, s.count - 1, s.pcs.set i BPc.rRelM2⟩ = 1 :=
          cohort_eq_one (by omega) (by omega)
        refine ⟨?_, hm', ?_⟩
        · show s.count - 1 =
            (cntB ⟨s.mutex, s.event, s.count - 1, s.pcs.set i BPc.rRelM2⟩ : Int)
          omega
        · omega
  | rSetEv i h =>
      have hc := sumMap_set countedB s.pcs i _ BPc.rRelM2 h
      have hw := sumMap_set tokenW s.pcs i _ BPc.rRelM2 h
      have hs2 := sumMap_set tokenS s.pcs i _ BPc.rRelM2 h
      have hf := sumMap_set firstWait s.pcs i _ BPc.rRelM2 h
      simp only [countedB, tokenW, tokenS, firstWait] at hc hw hs2 hf
      have hm' : ∀ i' p, (s.pcs.set i BPc.rRelM2).get? i' = some p →
          holdsMutex p = true → s.mutex = some i' :=
        hmutex_set_of_ne s.mutex hlock (fun i' _ hli => hli)
          (fun _ => hlock i _ h rfl)
      have hsS1 : 1 ≤ (s.pcs.map tokenS).sum :=
        sumMap_ge_elem tokenS s.pcs i BPc.rSet h
      have eCntT : cntB ⟨s.mutex, true, s.count, s.pcs.set i BPc.rRelM2⟩ =
          ((s.pcs.set i BPc.rRelM2).map countedB).sum := rfl
      have eCntS : cntB s = (s.pcs.map countedB).sum := rfl
      have eFwT : fWait ⟨s.mutex, true, s.count, s.pcs.set i BPc.rRelM2⟩ =
          ((s.pcs.set i BPc.rRelM2).map firstWait).sum := rfl
      have eFwS : fWait s = (s.pcs.map firstWait).sum := rfl
      have eWT : wTok ⟨s.mutex, true, s.count, s.pcs.set i BPc.rRelM2⟩ =
          ((s.pcs.set i BPc.rRelM2).map tokenW).sum := rfl
      have eWS : wTok s = (s.pcs.map tokenW).sum := rfl
      have eST : sTok ⟨s.mutex, true, s.count, s.pcs.set i BPc.rRelM2⟩ =
          ((s.pcs.set i BPc.rRelM2).map tokenS).sum := rfl
      have eSS : sTok s = (s.pcs.map tokenS).sum := rfl
      have eET : evTok ⟨s.mutex, true, s.count, s.pcs.set i BPc.rRelM2⟩ = 1 := rfl
      have hcoT : cohort ⟨s.mutex, true, s.count, s.pcs.set i BPc.rRelM2⟩ =
          cohort s := cohort_congr (by omega) (by omega)
      have hcoLe := cohort_le_one s
      refine ⟨clause1_set _ _ h h1 rfl, hm', by omega⟩
  | rRelMutex2 i h =>
      refine ⟨clause1_set _ _ h h1 rfl, ?_, clause3_neutral _ _ h h3 rfl rfl rfl rfl⟩
      refine hmutex_set_of_ne none hlock (fun i' hne hli => ?_)
        (fun hb => by simp [holdsMutex] at hb)
      rw [hlock i _ h rfl] at hli
      exact absurd (Option.some.inj hli).symm hne
  | startWrite i h =>
      refine ⟨clause1_set _ _ h h1 rfl, ?_, clause3_neutral _ _ h h3 rfl rfl rfl rfl⟩
      exact hmutex_set_of_ne s.mutex hlock (fun i' _ hli => hli)
        (fun hb => by simp [holdsMutex] at hb)
  | wConsume i h he =>
      have hc := sumMap_set countedB s.pcs i _ BPc.wMtx h
      have hw := sumMap_set tokenW s.pcs i _ BPc.wMtx h
      have hs2 := sumMap_set tokenS s.pcs i _ BPc.wMtx h
      have hf := sumMap_set firstWait s.pcs i _ BPc.wMtx h
      simp only [countedB, tokenW, tokenS, firstWait] at hc hw hs2 hf
      have hm' : ∀ i' p, (s.pcs.set i BPc.wMtx).get? i' = some p →
          holdsMutex p = true → s.mutex = some i' :=
        hmutex_set_of_ne s.mutex hlock (fun i' _ hli => hli)
          (fun hb => by simp [holdsMutex] at hb)
      have eCntT : cntB ⟨s.mutex, false, s.count, s.pcs.set i BPc.wMtx⟩ =
          ((s.pcs.set i BPc.wMtx).map countedB).sum := rfl
      have eCntS : cntB s = (s.pcs.map countedB).sum := rfl
      have eFwT : fWait ⟨s.mutex, false, s.count, s.pcs.set i BPc.wMtx⟩ =
          ((s.pcs.set i BPc.wMtx).map firstWait).sum := rfl
      have eFwS : fWait s = (s.pcs.map firstWait).sum := rfl
      have eWT : wTok ⟨s.mutex, false, s.count, s.pcs.set i BPc.wMtx⟩ =
          ((s.pcs.set i BPc.wMtx).map tokenW).sum := rfl
      have eWS : wTok s = (s.pcs.map tokenW).sum := rfl
      have eST : sTok ⟨s.mutex, false, s.count, s.pcs.set i BPc.wMtx⟩ =
          ((s.pcs.set i BPc.wMtx).map tokenS).sum := rfl
      have eSS : sTok s = (s.pcs.map tokenS).sum := rfl
      have eET : evTok ⟨s.mutex, false, s.count, s.pcs.set i BPc.wMtx⟩ = 0 := rfl
      have eES : evTok s = 1 := by simp [evTok, he]
      have hcoT : cohort ⟨s.mutex, false, s.count, s.pcs.set i BPc.wMtx⟩ =
          cohort s := cohort_congr (by omega) (by omega)
      have hcoLe := cohort_le_one s
      refine ⟨clause1_set _ _ h h1 rfl, hm', by omega⟩
  | wAcqM i h hm =>
      refine ⟨clause1_set _ _ h h1 rfl, ?_, clause3_neutral _ _ h h3 rfl rfl rfl rfl⟩
      exact hmutex_set_of_ne (some i) hlock
        (fun i' _ hli => by rw [hm] at hli; cases hli) (fun _ => rfl)
  | wRelMutex i h =>
      refine ⟨clause1_set _ _ h h1 rfl, ?_, clause3_neutral _ _ h h3 rfl rfl rfl rfl⟩
      refine hmutex_set_of_ne none hlock (fun i' hne hli => ?_)
        (fun hb => by simp [holdsMutex] at hb)
      rw [hlock i _ h rfl] at hli
      exact absurd (Option.some.inj hli).symm hne
  | wSetEv i h =>
      have hc := sumMap_set countedB s.pcs i _ BPc.idle h
      have hw := sumMap_set tokenW s.pcs i _ BPc.idle h
      have hs2 := sumMap_set tokenS s.pcs i _ BPc.idle h
      have hf := sumMap_set firstWait s.pcs i _ BPc.idle h
      simp only [countedB, tokenW, tokenS, firstWait] at hc hw hs2 hf
      have hm' : ∀ i' p, (s.pcs.set i BPc.idle).get? i' = some p →
          holdsMutex p = true → s.mutex = some i' :=
        hmutex_set_of_ne s.mutex hlock (fun i' _ hli => hli)
          (fun hb => by simp [holdsMutex] at hb)
      have hwS1 : 1 ≤ (s.pcs.map tokenW).sum :=
        sumMap_ge_elem tokenW s.pcs i BPc.wSet h
      have eCntT : cntB ⟨s.mutex, true, s.count, s.pcs.set i BPc.idle⟩ =
          ((s.pcs.set i BPc.idle).map countedB).sum := rfl
      have eCntS : cntB s = (s.pcs.map countedB).sum := rfl
      have eFwT : fWait ⟨s.mutex, true, s.count, s.pcs.set i BPc.idle⟩ =
          ((s.pcs.set i BPc.idle).map firstWait).sum := rfl
      have eFwS : fWait s = (s.pcs.map firstWait).sum := rfl
      have eWT : wTok ⟨s.mutex, true, s.count, s.pcs.set i BPc.idle⟩ =
          ((s.pcs.set i BPc.idle).map tokenW).sum := rfl
      have eWS : wTok s = (s.pcs.map tokenW).sum := rfl
      have eST : sTok ⟨s.mutex, true, s.count, s.pcs.set i BPc.idle⟩ =
          ((s.pcs.set i BPc.idle).map tokenS).sum := rfl
      have eSS : sTok s = (s.pcs.map tokenS).sum := rfl
      have eET : evTok ⟨s.mutex, true, s.count, s.pcs.set i BPc.idle⟩ = 1 := rfl
      have hcoT : cohort ⟨s.mutex, true, s.count, s.pcs.set i BPc.idle⟩ =
          cohort s := cohort_congr (by omega) (by omega)
      have hcoLe := cohort_le_one s
      refine ⟨clause1_set _ _ h h1 rfl, hm', by omega⟩

lemma InvB_reach {n : Nat} {s : BState} (h : ReachB n s) : InvB s := by
  induction h with
  | init => exact InvB_init n
  | step _ hst ih => exact InvB_step ih hst

lemma B_wIn_count {n : Nat} {s : BState} {i : Nat} (hr : ReachB n s)
    (hi : s.pcs.get? i = some .wIn) : cntB s = 0 ∧ s.count = 0 := by
  obtain ⟨h1, hlock, h3⟩ := InvB_reach hr
  have hw1 : 1 ≤ wTok s := sumMap_ge_elem tokenW s.pcs i BPc.wIn hi
  have hcoh : cohort s = 0 := by omega
  have hcnt : cntB s = 0 := by
    by_contra hne
    have hpos : 0 < cntB s := Nat.pos_of_ne_zero hne
    have hf : fWait s ≠ 0 := by
      intro hf0
      rw [cohort_eq_one hpos hf0] at hcoh
      exact absurd hcoh one_ne_zero
    obtain ⟨j, p, hj, hp⟩ := sumMap_pos_elem firstWait s.pcs (Nat.pos_of_ne_zero hf)
    have hpe : p = BPc.rEvt := by
      cases p <;> (try rfl) <;> simp [firstWait] at hp
    subst hpe
    have e1 := hlock j _ hj rfl
    have e2 := hlock i _ hi rfl
    rw [e2] at e1
    cases Option.some.inj e1
    rw [hi] at hj
    simp at hj
  exact ⟨hcnt, by omega⟩

lemma B_wIn_no_reader {n : Nat} {s : BState} {i j : Nat} (hr : ReachB n s)
    (hi : s.pcs.get? i = some .wIn) (hj : s.pcs.get? j = some .rIn) : False := by
  have h0 := (B_wIn_count hr hi).1
  have hc1 : 1 ≤ cntB s := sumMap_ge_elem countedB s.pcs j BPc.rIn hj
  omega

lemma B_wIn_unique {n : Nat} {s : BState} {i j : Nat} (hr : ReachB n s)
    (hi : s.pcs.get? i = some .wIn) (hj : s.pcs.get? j = some .wIn) : i = j := by
  obtain ⟨_, hlock, _⟩ := InvB_reach hr
  have e1 := hlock i _ hi rfl
  have e2 := hlock j _ hj rfl
  rw [e1] at e2
  exact Option.some.inj e2

/-- A Variant B schedule putting a lone writer inside its critical
section: it consumed the event, then acquired the mutex. -/
lemma reachB_wIn_demo : ReachB 1 ⟨some 0, false, 0, [BPc.wIn]⟩ := by
  have r0 : ReachB 1 ⟨none, true, 0, [BPc.idle]⟩ := ReachB.init
  have r1 : ReachB 1 ⟨none, true, 0, [BPc.wEvt]⟩ :=
    r0.step (BStep.startWrite _ 0 rfl)
  have r2 : ReachB 1 ⟨none, false, 0, [BPc.wMtx]⟩ :=
    r1.step (BStep.wConsume _ 0 rfl rfl)
  exact r2.step (BStep.wAcqM _ 0 rfl rfl)

/-- Mutual exclusion of critical sections for the Variant A gate: no
write critical section (`wIn`) overlaps a read critical section (`rIn`),
and no two write critical sections overlap. -/
def AMutexOK (s : AState) : Prop :=
  (∀ i j : Nat, s.pcs.get? i = some APc.wIn → s.pcs.get? j = some APc.rIn → False) ∧
  (∀ i j : Nat, s.pcs.get? i = some APc.wIn → s.pcs.get? j = some APc.wIn → i = j)

/-- Mutual exclusion for the Variant B gate: no write critical section
overlaps a read critical section, no two write critical sections
overlap, and while a writer holds the mutex inside its critical section
`reader_count = 0`. -/
def BMutexOK (s : BState) : Prop :=
  (∀ i j : Nat, s.pcs.get? i = some BPc.wIn → s.pcs.get? j = some BPc.rIn → False) ∧
  (∀ i j : Nat, s.pcs.get? i = some BPc.wIn → s.pcs.get? j = some BPc.wIn → i = j) ∧
  (∀ i : Nat, s.pcs.get? i = some BPc.wIn → s.count = 0)

/-- C1 (amended): in every reachable state of either gate variant, no
write critical section (between `acquire_write` returning and
`release_write` starting) overlaps any read critical section and no two
write critical sections overlap; in Variant B the literal form also
holds (a writer holding the mutex inside its critical section implies
`reader_count = 0`).  The literal "write lock held by a writer" form
fails in Variant A while the writer is still draining the semaphore
(see the counterexample), which is why the invariant is stated on
critical sections. -/
theorem C1_gate_mutual_exclusion :
    (∀ N n : Nat, ∀ s : AState, ReachA N n s → AMutexOK s) ∧
    (∀ n : Nat, ∀ s : BState, ReachB n s → BMutexOK s) := by
  constructor
  · intro N n s hr
    exact ⟨fun i j hi hj => A_wIn_no_reader hr hi hj,
           fun i j hi hj => A_wIn_unique hr hi hj⟩
  · intro n s hr
    exact ⟨fun i j hi hj => B_wIn_no_reader hr hi hj,
           fun i j hi hj => B_wIn_unique hr hi hj,
           fun i hi => (B_wIn_count hr hi).2⟩

theorem C1_gate_mutual_exclusion_witness :
    AMutexOK ⟨0, some 0, [APc.wIn]⟩ ∧ BMutexOK ⟨some 0, false, 0, [BPc.wIn]⟩ :=
  ⟨C1_gate_mutual_exclusion.1 1 1 _ reachA_wIn_demo,
   C1_gate_mutual_exclusion.2 1 _ reachB_wIn_demo⟩
